import Mathlib

/-!
Verification of the customer-support helper service (`main.py`).

Text is modelled as `List Char` (`Str`); Python dicts as association
lists in insertion order; the nondeterministic environment (uuid4,
`datetime.utcnow`, the TextBlob polarity score) as explicit parameters.
The two regular expressions of the intent recognizer are embedded as
scanning functions that mirror Python `re.search` leftmost-match
semantics on the ASCII fragment the patterns use.
-/

namespace CustomerHelper

abbrev Str : Type := List Char

/-- Coerce a Lean string literal into the model's text type. -/
def str (s : String) : Str := s.data

/-- ASCII lower-casing of one character, the model of `str.lower()`. -/
def lowerChar (c : Char) : Char :=
  if 'A' ≤ c ∧ c ≤ 'Z' then Char.ofNat (c.toNat + 32) else c

/-- ASCII upper-casing of one character, the model of `str.upper()`. -/
def upperChar (c : Char) : Char :=
  if 'a' ≤ c ∧ c ≤ 'z' then Char.ofNat (c.toNat - 32) else c

def lowerStr (s : Str) : Str := s.map lowerChar

def upperStr (s : Str) : Str := s.map upperChar

/-- Characters matched by `[A-Z0-9]` under `re.IGNORECASE` (ASCII). -/
def isAlnum (c : Char) : Bool :=
  ('A' ≤ c && c ≤ 'Z') || ('a' ≤ c && c ≤ 'z') || ('0' ≤ c && c ≤ '9')

/-- Characters matched by `\s` (ASCII fragment). -/
def isSpaceChar (c : Char) : Bool :=
  c == ' ' || c == '\t' || c == '\n' || c == '\r' || c == '\x0b' || c == '\x0c'

/-- Characters matched by `\w`, deciding `\b` word boundaries (ASCII). -/
def isWordChar (c : Char) : Bool := isAlnum c || c == '_'

/-- `strHasPre needle hay`: `needle` is a literal prefix of `hay`. -/
def strHasPre : Str → Str → Bool
  | [], _ => true
  | _ :: _, [] => false
  | c :: cs, d :: ds => c == d && strHasPre cs ds

/-- `containsSub needle hay`: Python's substring test `needle in hay`. -/
def containsSub (needle : Str) : Str → Bool
  | [] => strHasPre needle []
  | d :: ds => strHasPre needle (d :: ds) || containsSub needle ds

/-- Python dict read `d.get(k)` / `d[k]` on an insertion-ordered alist. -/
def dictGet {α : Type} (k : Str) : List (Str × α) → Option α
  | [] => none
  | (k', v) :: rest => if k = k' then some v else dictGet k rest

/-- Python dict write `d[k] = v`: replace in place, else append. -/
def dictInsert {α : Type} (k : Str) (v : α) : List (Str × α) → List (Str × α)
  | [] => [(k, v)]
  | (k', v') :: rest =>
    if k = k' then (k', v) :: rest else (k', v') :: dictInsert k v rest

/-- One record of `faq_database`: keywords, question and answer. -/
structure FAQEntry where
  keywords : List Str
  question : Str
  answer : Str
deriving DecidableEq

/-- The static FAQ store, in declaration (= dict iteration) order. -/
def faq_database : List (Str × FAQEntry) := [
  (str "password_reset",
    { keywords := [str "password", str "reset", str "forgot", str "change account"],
      question := str "How do I reset my password?",
      answer := str "You can reset your password by visiting the 'Account Settings' page and clicking on 'Forgot Password'. An email will be sent to you with instructions." }),
  (str "shipping_info",
    { keywords := [str "shipping", str "delivery", str "track", str "package", str "how long", str "ship"],
      question := str "How long does shipping take?",
      answer := str "Standard shipping usually takes 3-5 business days. Expedited shipping takes 1-2 business days. You will receive a tracking number once your order ships." }),
  (str "return_policy",
    { keywords := [str "return", str "refund", str "exchange", str "policy"],
      question := str "What is your return policy?",
      answer := str "You can return most new, unopened items within 30 days of delivery for a full refund. We'll also pay the return shipping costs if the return is a result of our error." }),
  (str "payment_options",
    { keywords := [str "payment", str "pay", str "credit card", str "paypal", str "options"],
      question := str "What payment options do you accept?",
      answer := str "We accept Visa, MasterCard, American Express, and PayPal." })]

/-- Keyword count of one FAQ entry against the lower-cased query. -/
def entryScore (q : Str) (e : FAQEntry) : Nat :=
  (e.keywords.filter (fun k => containsSub k q)).length

/-- One iteration of the matcher loop: keep `(best_match_score, best_faq_id)`,
updating only on a strictly greater score. -/
def faqStep (q : Str) (acc : Nat × Option Str) (p : Str × FAQEntry) : Nat × Option Str :=
  if acc.1 < entryScore q p.2 then (entryScore q p.2, some p.1) else acc

/-- `find_faq_answer` of `main.py`: lower-case the query, scan the store
keeping the first entry with the strictly highest score, return it when the
best id is set (ids are non-empty, hence truthy) and the score is positive. -/
def find_faq_answer (user_query : Str) : Option FAQEntry :=
  match List.foldl (faqStep (lowerStr user_query)) (0, none) faq_database with
  | (best_match_score, some best_faq_id) =>
    if 0 < best_match_score then dictGet best_faq_id faq_database else none
  | (_, none) => none

structure FAQResponse where
  matched_question : Option Str
  answer : Str
deriving DecidableEq

/-- Fallback answer of the `/support/faq` endpoint. -/
def faqFallbackAnswer : Str :=
  str "I'm sorry, I couldn't find an answer related to your query. Please try rephrasing or check our full FAQ page."

/-- Handler of `POST /support/faq` (after schema validation). -/
def get_faq (query : Str) : FAQResponse :=
  match find_faq_answer query with
  | some faq_item => { matched_question := some faq_item.question, answer := faq_item.answer }
  | none => { matched_question := none, answer := faqFallbackAnswer }

/-- `get_sentiment` thresholding, over the external polarity score. -/
def get_sentiment (polarity : ℚ) : Str :=
  if polarity > 1/10 then str "positive"
  else if polarity < -(1/10) then str "negative"
  else str "neutral"

/-- Sentiment of a text, given a fixed external scoring function. -/
def classify (pol : Str → ℚ) (text : Str) : Str := get_sentiment (pol text)

/-- A stored/returned ticket record (all six fields of `TicketResponse`). -/
structure Ticket where
  ticket_id : Str
  user_email : Str
  issue_description : Str
  status : Str
  sentiment : Str
  timestamp : Str
deriving DecidableEq

abbrev TicketDB := List (Str × Ticket)

structure TicketInput where
  user_email : Str
  issue_description : Str
deriving DecidableEq

/-- Pydantic validation of `TicketInput`: both fields present and
`issue_description` at least 10 characters. -/
def validateTicketInput (user_email issue_description : Option Str) : Option TicketInput :=
  match user_email, issue_description with
  | some e, some d => if 10 ≤ d.length then some ⟨e, d⟩ else none
  | _, _ => none

structure HTTPError where
  status_code : Nat
  detail : Str
deriving DecidableEq

/-- The 422 response FastAPI produces when schema validation fails. -/
def validationError422 : HTTPError := { status_code := 422, detail := str "validation error" }

instance {ε α : Type} [DecidableEq ε] [DecidableEq α] : DecidableEq (Except ε α) := fun a b =>
  match a, b with
  | .error x, .error y =>
    if h : x = y then .isTrue (by rw [h]) else .isFalse (fun e => h (Except.error.inj e))
  | .ok x, .ok y =>
    if h : x = y then .isTrue (by rw [h]) else .isFalse (fun e => h (Except.ok.inj e))
  | .error _, .ok _ => .isFalse (fun e => Except.noConfusion e)
  | .ok _, .error _ => .isFalse (fun e => Except.noConfusion e)

/-- Handler of `POST /support/ticket`. `uuid` models `uuid.uuid4()`, `ts`
models `datetime.utcnow().isoformat() + "Z"`, `pol` the TextBlob polarity. -/
def submit_ticket (pol : Str → ℚ) (uuid ts : Str) (db : TicketDB)
    (user_email issue_description : Option Str) : Except HTTPError Ticket × TicketDB :=
  match validateTicketInput user_email issue_description with
  | none => (Except.error validationError422, db)
  | some ticket_input =>
    let new_ticket : Ticket :=
      { ticket_id := uuid
        user_email := ticket_input.user_email
        issue_description := ticket_input.issue_description
        status := str "submitted"
        sentiment := classify pol ticket_input.issue_description
        timestamp := ts }
    (Except.ok new_ticket, dictInsert uuid new_ticket db)

/-- Handler of `GET /support/tickets/\x7bticket_id\x7d`: 404 when the id is
not a key, otherwise the stored record; the store is returned unchanged. -/
def get_ticket_status (db : TicketDB) (ticket_id : Str) : Except HTTPError Ticket × TicketDB :=
  match dictGet ticket_id db with
  | some t => (Except.ok t, db)
  | none => (Except.error { status_code := 404, detail := str "Ticket not found" }, db)

/-- The three verb phrases of the track-order pattern, each already
including the literal " my order" tail, in regex alternation order. -/
def trackPhrases : List Str :=
  [str "track my order", str "status of my order", str "where is my order"]

/-- Case-insensitive literal match of `pat` (lower-case) at the head of
`t`; returns the rest of `t` on success. -/
def matchPhrase : Str → Str → Option Str
  | [], t => some t
  | _ :: _, [] => none
  | p :: ps, c :: cs => if lowerChar c = p then matchPhrase ps cs else none

/-- Try the three alternatives of the track-order pattern at this position. -/
def trackPrefixAt (t : Str) : Option Str :=
  match matchPhrase (str "track my order") t with
  | some r => some r
  | none =>
    match matchPhrase (str "status of my order") t with
    | some r => some r
    | none => matchPhrase (str "where is my order") t

/-- `\s*([A-Z0-9]+)` at the head of `rest`: skip whitespace greedily, then
capture a non-empty maximal alphanumeric run. -/
def tokenAfter (rest : Str) : Option Str :=
  match (rest.dropWhile (fun c => isSpaceChar c)).takeWhile (fun c => isAlnum c) with
  | [] => none
  | c :: cs => some (c :: cs)

/-- `re.search` of `(track|status of|where is) my order\s*([A-Z0-9]+)` with
`re.IGNORECASE`: scan start positions left to right, return group 2. -/
def searchTrackOrder : Str → Option Str
  | [] => none
  | c :: cs =>
    match trackPrefixAt (c :: cs) with
    | some r =>
      match tokenAfter r with
      | some tok => some tok
      | none => searchTrackOrder cs
    | none => searchTrackOrder cs

/-- The greeting words of `\b(hello|hi|hey|good morning|good afternoon)\b`. -/
def greetingWords : List Str :=
  [str "hello", str "hi", str "hey", str "good morning", str "good afternoon"]

/-- Literal match of `w` at the head of `t` followed by a right word
boundary (end of string or a non-word character). -/
def wordAt (w t : Str) : Bool :=
  match w, t with
  | [], [] => true
  | [], c :: _ => !isWordChar c
  | _ :: _, [] => false
  | a :: as, c :: cs => a == c && wordAt as cs

/-- Scan for `\b(hello|hi|hey|good morning|good afternoon)\b`; `prev` says
whether the character before the current position is a word character. -/
def greetingScan : Bool → Str → Bool
  | _, [] => false
  | prev, c :: cs =>
    (!prev && greetingWords.any (fun w => wordAt w (c :: cs))) || greetingScan (isWordChar c) cs

/-- `re.search` of the greeting pattern on the lower-cased query. -/
def greetingFound (t : Str) : Bool := greetingScan false t

structure ActionResponse where
  intent : Str
  entities : List (Str × Str)
  message : Str
deriving DecidableEq

def unknownMessage : Str :=
  str "I'm not sure how to help with that. Can you try rephrasing or ask about FAQs, order tracking, or submitting a ticket?"

def greetingMessage : Str := str "Hello! How can I help you today?"

/-- `recognize_intent_and_extract_entities` of `main.py`: track_order first,
then greeting on the lower-cased query, else unknown. -/
def recognize_intent_and_extract_entities (user_query : Str) : ActionResponse :=
  match searchTrackOrder user_query with
  | some tok =>
    let order_id := upperStr tok
    { intent := str "track_order"
      entities := [(str "order_id", order_id)]
      message := str "Fetching status for order " ++ order_id ++ str "..." }
  | none =>
    if greetingFound (lowerStr user_query) then
      { intent := str "greeting", entities := [], message := greetingMessage }
    else
      { intent := str "unknown", entities := [], message := unknownMessage }

/-- Handler of `POST /support/action`: overwrite the message with the mocked
delivery status exactly when the intent is track_order. -/
def perform_action (query : Str) : ActionResponse :=
  let result := recognize_intent_and_extract_entities query
  if result.intent = str "track_order" then
    let order_id := (dictGet (str "order_id") result.entities).getD (str "None")
    { result with
      message := str "Mocked: Order " ++ order_id ++
        str " is currently out for delivery. Estimated arrival: Tomorrow." }
  else result

/-- The track-order pattern matches somewhere in `q`: some case-variant of a
verb phrase, then optional whitespace, then a non-empty alphanumeric token. -/
def trackSpec (q : Str) : Prop :=
  ∃ pre ph ws tok post, q = pre ++ (ph ++ (ws ++ (tok ++ post))) ∧
    lowerStr ph ∈ trackPhrases ∧ ws.all (fun c => isSpaceChar c) = true ∧
    tok ≠ [] ∧ tok.all (fun c => isAlnum c) = true

/-- A whole-word occurrence of a greeting word in the (lower-cased) text:
the characters adjacent to the occurrence, if any, are not word characters. -/
def greetingSpec (t : Str) : Prop :=
  ∃ w pre post, w ∈ greetingWords ∧ t = pre ++ (w ++ post) ∧
    (∀ c, pre.getLast? = some c → isWordChar c = false) ∧
    (∀ c, post.head? = some c → isWordChar c = false)

/-- Left word-boundary condition at the scan position after `pre`, where
`prev` records whether the character just before the position is a word
character (`false` at the start of the string). -/
def leftBoundary (prev : Bool) (pre : Str) : Prop :=
  (pre = [] ∧ prev = false) ∨ ∃ pre' c, pre = pre' ++ [c] ∧ isWordChar c = false

section Lemmas

theorem dictGet_insert_self {α : Type} (k : Str) (v : α) (db : List (Str × α)) :
    dictGet k (dictInsert k v db) = some v := by
  induction db with
  | nil => rw [dictInsert, dictGet, if_pos rfl]
  | cons p rest ih =>
    obtain ⟨k', v'⟩ := p
    by_cases h : k = k'
    · rw [dictInsert, if_pos h, dictGet, if_pos h]
    · rw [dictInsert, if_neg h, dictGet, if_neg h]
      exact ih

theorem dictGet_insert_ne {α : Type} (k k' : Str) (v : α) (db : List (Str × α))
    (h : k' ≠ k) : dictGet k' (dictInsert k v db) = dictGet k' db := by
  induction db with
  | nil => simp only [dictInsert, dictGet, if_neg h]
  | cons p rest ih =>
    obtain ⟨k₀, v₀⟩ := p
    by_cases hk : k = k₀
    · subst hk
      simp only [dictInsert, if_pos rfl, dictGet, if_neg h]
    · simp only [dictInsert, if_neg hk, dictGet]
      by_cases hk' : k' = k₀
      · rw [if_pos hk', if_pos hk']
      · rw [if_neg hk', if_neg hk', ih]

theorem dictGet_eq_none_iff {α : Type} (k : Str) (db : List (Str × α)) :
    dictGet k db = none ↔ k ∉ db.map Prod.fst := by
  induction db with
  | nil => simp [dictGet]
  | cons p rest ih =>
    obtain ⟨k', v'⟩ := p
    by_cases h : k = k'
    · subst h
      rw [dictGet, if_pos rfl]
      constructor
      · intro hx
        exact Option.noConfusion hx
      · intro hx
        exact ((hx (by simp only [List.map_cons]; exact List.mem_cons_self _ _)).elim)
    · rw [dictGet, if_neg h, ih]
      constructor
      · intro hx hmem
        simp only [List.map_cons, List.mem_cons] at hmem
        rcases hmem with e | hmem
        · exact h e
        · exact hx hmem
      · intro hx hmem
        exact hx (by simp only [List.map_cons, List.mem_cons]; exact Or.inr hmem)

theorem dictInsert_fresh {α : Type} (k : Str) (v : α) (db : List (Str × α))
    (h : dictGet k db = none) : dictInsert k v db = db ++ [(k, v)] := by
  induction db with
  | nil => rfl
  | cons p rest ih =>
    obtain ⟨k', v'⟩ := p
    by_cases hk : k = k'
    · rw [dictGet, if_pos hk] at h
      exact absurd h (by simp)
    · rw [dictGet, if_neg hk] at h
      rw [dictInsert, if_neg hk, ih h, List.cons_append]

theorem dictGet_middle_of_nodup {α : Type} (l₁ l₂ : List (Str × α)) (k : Str) (v : α)
    (h : ((l₁ ++ (k, v) :: l₂).map Prod.fst).Nodup) :
    dictGet k (l₁ ++ (k, v) :: l₂) = some v := by
  induction l₁ with
  | nil => rw [List.nil_append, dictGet, if_pos rfl]
  | cons p rest ih =>
    obtain ⟨k', v'⟩ := p
    simp only [List.cons_append, List.map_cons, List.nodup_cons] at h
    have hmem : k ∈ List.map Prod.fst (rest ++ (k, v) :: l₂) := by
      rw [List.map_append, List.map_cons]
      exact List.mem_append_right _ (List.mem_cons_self _ _)
    have hk : k ≠ k' := by
      intro e
      subst e
      exact h.1 hmem
    simp only [List.cons_append, dictGet, if_neg hk]
    exact ih h.2

/-- Behaviour of the matcher loop: either no entry beats the running best, or
the fold yields the first entry attaining the strictly highest score. -/
theorem faqFold_spec (q : Str) (l : List (Str × FAQEntry)) :
    ∀ (n : Nat) (o : Option Str),
      (List.foldl (faqStep q) (n, o) l = (n, o) ∧ ∀ p ∈ l, entryScore q p.2 ≤ n) ∨
      (∃ l₁ w l₂, l = l₁ ++ w :: l₂ ∧
        List.foldl (faqStep q) (n, o) l = (entryScore q w.2, some w.1) ∧
        n < entryScore q w.2 ∧
        (∀ p ∈ l₁, entryScore q p.2 < entryScore q w.2) ∧
        (∀ p ∈ l₂, entryScore q p.2 ≤ entryScore q w.2)) := by
  induction l with
  | nil => exact fun n o => Or.inl ⟨rfl, by simp⟩
  | cons p l ih =>
    intro n o
    by_cases h : n < entryScore q p.2
    · have hstep : faqStep q (n, o) p = (entryScore q p.2, some p.1) := by
        simp [faqStep, h]
      rcases ih (entryScore q p.2) (some p.1) with ⟨heq, hall⟩ | ⟨l₁, w, l₂, hdec, hres, hlt, hl₁, hl₂⟩
      · refine Or.inr ⟨[], p, l, rfl, ?_, h, by simp, hall⟩
        rw [List.foldl_cons, hstep, heq]
      · refine Or.inr ⟨p :: l₁, w, l₂, by rw [hdec, List.cons_append], ?_, lt_trans h hlt, ?_, hl₂⟩
        · rw [List.foldl_cons, hstep, hres]
        · intro x hx
          rcases List.mem_cons.mp hx with hx | hx
          · subst hx; exact hlt
          · exact hl₁ x hx
    · have hstep : faqStep q (n, o) p = (n, o) := by
        simp [faqStep, h]
      rcases ih n o with ⟨heq, hall⟩ | ⟨l₁, w, l₂, hdec, hres, hlt, hl₁, hl₂⟩
      · refine Or.inl ⟨?_, ?_⟩
        · rw [List.foldl_cons, hstep, heq]
        · intro x hx
          rcases List.mem_cons.mp hx with hx | hx
          · subst hx; exact Nat.le_of_not_lt h
          · exact hall x hx
      · refine Or.inr ⟨p :: l₁, w, l₂, by rw [hdec, List.cons_append], ?_, hlt, ?_, hl₂⟩
        · rw [List.foldl_cons, hstep, hres]
        · intro x hx
          rcases List.mem_cons.mp hx with hx | hx
          · subst hx; exact lt_of_le_of_lt (Nat.le_of_not_lt h) hlt
          · exact hl₁ x hx

theorem faq_keys_nodup : (faq_database.map Prod.fst).Nodup := by decide

theorem strHasPre_append_self (n r : Str) : strHasPre n (n ++ r) = true := by
  induction n with
  | nil => rfl
  | cons c cs ih => simp [strHasPre, ih]

theorem containsSub_of_head (n hay : Str) (h : strHasPre n hay = true) :
    containsSub n hay = true := by
  cases hay with
  | nil => exact h
  | cons d ds => rw [containsSub, h, Bool.true_or]

theorem containsSub_middle (pre n post : Str) :
    containsSub n (pre ++ (n ++ post)) = true := by
  induction pre with
  | nil => exact containsSub_of_head n (n ++ post) (strHasPre_append_self n post)
  | cons a pre' ih => rw [List.cons_append, containsSub, ih, Bool.or_true]

theorem isSpaceChar_false_of_isAlnum (c : Char) (h : isAlnum c = true) :
    isSpaceChar c = false := by
  cases hs : isSpaceChar c with
  | false => rfl
  | true =>
    exfalso
    rw [isSpaceChar] at hs
    simp only [Bool.or_eq_true, beq_iff_eq] at hs
    have hc : c = ' ' ∨ c = '\t' ∨ c = '\n' ∨ c = '\r' ∨ c = '\x0b' ∨ c = '\x0c' := by
      tauto
    rcases hc with h1 | h1 | h1 | h1 | h1 | h1 <;> subst h1 <;> exact absurd h (by decide)

theorem takeWhile_all (p : Char → Bool) (l : Str) : (l.takeWhile p).all p = true := by
  induction l with
  | nil => rfl
  | cons c cs ih =>
    rw [List.takeWhile_cons]
    cases hc : p c with
    | false => rfl
    | true => simp [List.all_cons, hc, ih]

theorem head_dropWhile_false (p : Char → Bool) (l : Str) :
    ∀ c, (l.dropWhile p).head? = some c → p c = false := by
  induction l with
  | nil => intro c hc; exact Option.noConfusion hc
  | cons a as ih =>
    intro c hc
    rw [List.dropWhile_cons] at hc
    by_cases ha : p a
    · rw [if_pos ha] at hc
      exact ih c hc
    · rw [if_neg ha] at hc
      have : a = c := Option.some.inj hc
      subst this
      exact Bool.of_not_eq_true ha

theorem dropWhile_append_all (p : Char → Bool) (l r : Str) (h : l.all p = true) :
    (l ++ r).dropWhile p = r.dropWhile p := by
  induction l with
  | nil => rfl
  | cons c cs ih =>
    rw [List.all_cons, Bool.and_eq_true] at h
    rw [List.cons_append, List.dropWhile_cons, if_pos h.1]
    exact ih h.2

theorem takeWhile_append_all (p : Char → Bool) (l r : Str) (h : l.all p = true) :
    (l ++ r).takeWhile p = l ++ r.takeWhile p := by
  induction l with
  | nil => rfl
  | cons c cs ih =>
    rw [List.all_cons, Bool.and_eq_true] at h
    rw [List.cons_append, List.takeWhile_cons, if_pos h.1, ih h.2, List.cons_append]

theorem matchPhrase_sound : ∀ (p t r : Str), matchPhrase p t = some r →
    ∃ ph, t = ph ++ r ∧ lowerStr ph = p := by
  intro p
  induction p with
  | nil =>
    intro t r h
    have : t = r := Option.some.inj h
    exact ⟨[], by rw [this, List.nil_append], rfl⟩
  | cons a ps ih =>
    intro t r h
    cases t with
    | nil => exact Option.noConfusion h
    | cons c cs =>
      by_cases hc : lowerChar c = a
      · rw [matchPhrase, if_pos hc] at h
        obtain ⟨ph, ht, hl⟩ := ih cs r h
        refine ⟨c :: ph, by rw [ht, List.cons_append], ?_⟩
        rw [lowerStr, List.map_cons, hc]
        rw [lowerStr] at hl
        rw [hl]
      · rw [matchPhrase, if_neg hc] at h
        exact Option.noConfusion h

theorem matchPhrase_complete : ∀ (ph p r : Str), lowerStr ph = p →
    matchPhrase p (ph ++ r) = some r := by
  intro ph
  induction ph with
  | nil =>
    intro p r h
    rw [← h]
    rfl
  | cons c tl ih =>
    intro p r h
    rw [← h, lowerStr, List.map_cons, List.cons_append, matchPhrase, if_pos rfl]
    exact ih (lowerStr tl) r rfl

theorem matchPhrase_head_ne (a : Char) (ps : Str) (c : Char) (cs : Str)
    (h : lowerChar c ≠ a) : matchPhrase (a :: ps) (c :: cs) = none := by
  rw [matchPhrase, if_neg h]

theorem trackPrefixAt_sound (t r : Str) (h : trackPrefixAt t = some r) :
    ∃ ph, t = ph ++ r ∧ lowerStr ph ∈ trackPhrases := by
  rw [trackPrefixAt] at h
  cases h1 : matchPhrase (str "track my order") t with
  | some r1 =>
    rw [h1] at h
    have hr : r1 = r := Option.some.inj h
    subst hr
    obtain ⟨ph, ht, hl⟩ := matchPhrase_sound _ _ _ h1
    refine ⟨ph, ht, ?_⟩
    rw [hl, trackPhrases]
    exact List.mem_cons_self _ _
  | none =>
    rw [h1] at h
    cases h2 : matchPhrase (str "status of my order") t with
    | some r2 =>
      rw [h2] at h
      have hr : r2 = r := Option.some.inj h
      subst hr
      obtain ⟨ph, ht, hl⟩ := matchPhrase_sound _ _ _ h2
      refine ⟨ph, ht, ?_⟩
      rw [hl, trackPhrases]
      exact List.mem_cons_of_mem _ (List.mem_cons_self _ _)
    | none =>
      rw [h2] at h
      obtain ⟨ph, ht, hl⟩ := matchPhrase_sound _ _ _ h
      refine ⟨ph, ht, ?_⟩
      rw [hl, trackPhrases]
      exact List.mem_cons_of_mem _ (List.mem_cons_of_mem _ (List.mem_cons_self _ _))

theorem trackPrefixAt_complete (ph r : Str) (hph : lowerStr ph ∈ trackPhrases) :
    trackPrefixAt (ph ++ r) = some r := by
  rw [trackPhrases] at hph
  simp only [List.mem_cons, List.not_mem_nil, or_false] at hph
  rcases hph with h | h | h
  · rw [trackPrefixAt, matchPhrase_complete ph _ r h]
  · have hne1 : matchPhrase (str "track my order") (ph ++ r) = none := by
      cases ph with
      | nil => exact absurd h (by decide)
      | cons c cs =>
        rw [show str "status of my order" = 's' :: str "tatus of my order" from rfl] at h
        rw [lowerStr, List.map_cons] at h
        have hc : lowerChar c = 's' := (List.cons.injEq _ _ _ _ ▸ h).1
        rw [show str "track my order" = 't' :: str "rack my order" from rfl, List.cons_append]
        exact matchPhrase_head_ne _ _ _ _ (by rw [hc]; decide)
    rw [trackPrefixAt, hne1, matchPhrase_complete ph _ r h]
  · have hc : ∃ c cs, ph = c :: cs ∧ lowerChar c = 'w' := by
      cases ph with
      | nil => exact absurd h (by decide)
      | cons c cs =>
        rw [show str "where is my order" = 'w' :: str "here is my order" from rfl] at h
        rw [lowerStr, List.map_cons] at h
        exact ⟨c, cs, rfl, (List.cons.injEq _ _ _ _ ▸ h).1⟩
    obtain ⟨c, cs, hcc, hw⟩ := hc
    subst hcc
    have hne1 : matchPhrase (str "track my order") ((c :: cs) ++ r) = none := by
      rw [show str "track my order" = 't' :: str "rack my order" from rfl, List.cons_append]
      exact matchPhrase_head_ne _ _ _ _ (by rw [hw]; decide)
    have hne2 : matchPhrase (str "status of my order") ((c :: cs) ++ r) = none := by
      rw [show str "status of my order" = 's' :: str "tatus of my order" from rfl,
        List.cons_append]
      exact matchPhrase_head_ne _ _ _ _ (by rw [hw]; decide)
    rw [trackPrefixAt, hne1, hne2, matchPhrase_complete (c :: cs) _ r h]

theorem tokenAfter_sound (r tok : Str) (h : tokenAfter r = some tok) :
    ∃ ws post, r = ws ++ (tok ++ post) ∧ ws.all (fun c => isSpaceChar c) = true ∧
      tok ≠ [] ∧ tok.all (fun c => isAlnum c) = true ∧
      ∀ c, post.head? = some c → isAlnum c = false := by
  rw [tokenAfter] at h
  cases htk : (r.dropWhile (fun c => isSpaceChar c)).takeWhile (fun c => isAlnum c) with
  | nil =>
    rw [htk] at h
    exact Option.noConfusion h
  | cons c cs =>
    rw [htk] at h
    have htok : c :: cs = tok := Option.some.inj h
    refine ⟨r.takeWhile (fun c => isSpaceChar c),
      (r.dropWhile (fun c => isSpaceChar c)).dropWhile (fun c => isAlnum c),
      ?_, takeWhile_all _ _, ?_, ?_, head_dropWhile_false _ _⟩
    · rw [← htok, ← htk, List.takeWhile_append_dropWhile, List.takeWhile_append_dropWhile]
    · rw [← htok]
      exact List.cons_ne_nil c cs
    · rw [← htok, ← htk]
      exact takeWhile_all _ _

theorem tokenAfter_complete (ws tok post : Str)
    (hws : ws.all (fun c => isSpaceChar c) = true) (hne : tok ≠ [])
    (hal : tok.all (fun c => isAlnum c) = true) :
    ∃ tok', tokenAfter (ws ++ (tok ++ post)) = some tok' := by
  cases tok with
  | nil => exact absurd rfl hne
  | cons a as =>
    rw [List.all_cons, Bool.and_eq_true] at hal
    have hdp : (ws ++ ((a :: as) ++ post)).dropWhile (fun c => isSpaceChar c) =
        a :: (as ++ post) := by
      rw [dropWhile_append_all _ _ _ hws, List.cons_append]
      exact List.dropWhile_cons_of_neg (by simp [isSpaceChar_false_of_isAlnum a hal.1])
    have htk : (a :: (as ++ post)).takeWhile (fun c => isAlnum c) =
        a :: (as ++ post).takeWhile (fun c => isAlnum c) :=
      List.takeWhile_cons_of_pos (by simp [hal.1])
    refine ⟨a :: (as ++ post).takeWhile (fun c => isAlnum c), ?_⟩
    rw [tokenAfter, hdp, htk]

theorem searchTrackOrder_sound (q : Str) : ∀ tok, searchTrackOrder q = some tok →
    ∃ pre ph ws post, q = pre ++ (ph ++ (ws ++ (tok ++ post))) ∧
      lowerStr ph ∈ trackPhrases ∧ ws.all (fun c => isSpaceChar c) = true ∧
      tok ≠ [] ∧ tok.all (fun c => isAlnum c) = true ∧
      ∀ c, post.head? = some c → isAlnum c = false := by
  induction q with
  | nil =>
    intro tok h
    exact Option.noConfusion h
  | cons c cs ih =>
    intro tok h
    rw [searchTrackOrder] at h
    cases htp : trackPrefixAt (c :: cs) with
    | none =>
      rw [htp] at h
      obtain ⟨pre, ph, ws, post, hq, hph, hws, hne, hal, hpost⟩ := ih tok h
      exact ⟨c :: pre, ph, ws, post, by rw [List.cons_append, ← hq], hph, hws, hne, hal, hpost⟩
    | some r =>
      rw [htp] at h
      have h2 : (match tokenAfter r with
          | some tk => some tk
          | none => searchTrackOrder cs) = some tok := h
      cases hta : tokenAfter r with
      | none =>
        rw [hta] at h2
        obtain ⟨pre, ph, ws, post, hq, hph, hws, hne, hal, hpost⟩ := ih tok h2
        exact ⟨c :: pre, ph, ws, post, by rw [List.cons_append, ← hq], hph, hws, hne, hal, hpost⟩
      | some tok' =>
        rw [hta] at h2
        have htt : tok' = tok := Option.some.inj h2
        subst htt
        obtain ⟨ph, ht, hph⟩ := trackPrefixAt_sound _ _ htp
        obtain ⟨ws, post, hr, hws, hne, hal, hpost⟩ := tokenAfter_sound _ _ hta
        exact ⟨[], ph, ws, post, by rw [List.nil_append, ← hr, ← ht], hph, hws, hne, hal, hpost⟩

theorem searchTrackOrder_step_some (c : Char) (cs r tok : Str)
    (h1 : trackPrefixAt (c :: cs) = some r) (h2 : tokenAfter r = some tok) :
    searchTrackOrder (c :: cs) = some tok := by
  rw [searchTrackOrder, h1]
  have h3 : (match tokenAfter r with
      | some tk => some tk
      | none => searchTrackOrder cs) = (some tok : Option Str) := by
    rw [h2]
  exact h3

theorem searchTrackOrder_step_skip (c : Char) (cs r : Str)
    (h1 : trackPrefixAt (c :: cs) = some r) (h2 : tokenAfter r = none) :
    searchTrackOrder (c :: cs) = searchTrackOrder cs := by
  rw [searchTrackOrder, h1]
  have h3 : (match tokenAfter r with
      | some tk => some tk
      | none => searchTrackOrder cs) = searchTrackOrder cs := by
    rw [h2]
  exact h3

theorem searchTrackOrder_step_fail (c : Char) (cs : Str)
    (h1 : trackPrefixAt (c :: cs) = none) :
    searchTrackOrder (c :: cs) = searchTrackOrder cs := by
  rw [searchTrackOrder, h1]

theorem searchTrackOrder_complete : ∀ (pre ph ws tok post : Str),
    lowerStr ph ∈ trackPhrases → ws.all (fun c => isSpaceChar c) = true → tok ≠ [] →
    tok.all (fun c => isAlnum c) = true →
    ∃ tok', searchTrackOrder (pre ++ (ph ++ (ws ++ (tok ++ post)))) = some tok' := by
  intro pre
  induction pre with
  | nil =>
    intro ph ws tok post hph hws hne hal
    have hphne : ph ≠ [] := by
      intro he
      subst he
      rw [trackPhrases] at hph
      exact absurd hph (by decide)
    obtain ⟨c, cs, hcc⟩ : ∃ c cs, ph = c :: cs := by
      cases ph with
      | nil => exact absurd rfl hphne
      | cons c cs => exact ⟨c, cs, rfl⟩
    have h1 : trackPrefixAt (ph ++ (ws ++ (tok ++ post))) = some (ws ++ (tok ++ post)) :=
      trackPrefixAt_complete ph _ hph
    obtain ⟨tok', h2⟩ := tokenAfter_complete ws tok post hws hne hal
    refine ⟨tok', ?_⟩
    subst hcc
    rw [List.nil_append, List.cons_append]
    rw [List.cons_append] at h1
    exact searchTrackOrder_step_some c _ _ tok' h1 h2
  | cons a pre' ih =>
    intro ph ws tok post hph hws hne hal
    obtain ⟨tok', h⟩ := ih ph ws tok post hph hws hne hal
    rw [List.cons_append]
    cases h1 : trackPrefixAt (a :: (pre' ++ (ph ++ (ws ++ (tok ++ post))))) with
    | none =>
      exact ⟨tok', by rw [searchTrackOrder_step_fail _ _ h1, h]⟩
    | some r =>
      cases h2 : tokenAfter r with
      | some tk =>
        exact ⟨tk, searchTrackOrder_step_some _ _ _ _ h1 h2⟩
      | none =>
        exact ⟨tok', by rw [searchTrackOrder_step_skip _ _ _ h1 h2, h]⟩

theorem wordAt_iff : ∀ (w t : Str), wordAt w t = true ↔
    ∃ post, t = w ++ post ∧ ∀ c, post.head? = some c → isWordChar c = false := by
  intro w
  induction w with
  | nil =>
    intro t
    cases t with
    | nil =>
      constructor
      · intro _
        exact ⟨[], rfl, fun c hc => Option.noConfusion hc⟩
      · intro _
        rfl
    | cons c cs =>
      constructor
      · intro h
        refine ⟨c :: cs, rfl, ?_⟩
        intro d hd
        have hcd : c = d := Option.some.inj hd
        subst hcd
        have h' : (!isWordChar c) = true := h
        simpa using h'
      · rintro ⟨post, hpost, hr⟩
        rw [List.nil_append] at hpost
        subst hpost
        have hc : isWordChar c = false := hr c rfl
        rw [wordAt, hc]
        rfl
  | cons a as ih =>
    intro t
    cases t with
    | nil =>
      constructor
      · intro h
        exact Bool.noConfusion h
      · rintro ⟨post, hpost, -⟩
        rw [List.cons_append] at hpost
        exact absurd hpost (by simp)
    | cons c cs =>
      constructor
      · intro h
        rw [wordAt, Bool.and_eq_true, beq_iff_eq] at h
        obtain ⟨hac, hw⟩ := h
        subst hac
        obtain ⟨post, hpost, hr⟩ := (ih cs).mp hw
        exact ⟨post, by rw [List.cons_append, hpost], hr⟩
      · rintro ⟨post, hpost, hr⟩
        rw [List.cons_append] at hpost
        obtain ⟨hac, hcs⟩ := List.cons.inj hpost
        subst hac
        rw [wordAt, Bool.and_eq_true, beq_iff_eq]
        exact ⟨rfl, (ih cs).mpr ⟨post, hcs, hr⟩⟩

theorem greetingScan_iff : ∀ (t : Str) (prev : Bool),
    greetingScan prev t = true ↔
    ∃ w pre post, w ∈ greetingWords ∧ t = pre ++ (w ++ post) ∧ leftBoundary prev pre ∧
      ∀ c, post.head? = some c → isWordChar c = false := by
  intro t
  induction t with
  | nil =>
    intro prev
    constructor
    · intro h
      exact Bool.noConfusion h
    · rintro ⟨w, pre, post, hw, ht, -, -⟩
      have hwne : w ≠ [] := (by decide : ∀ w ∈ greetingWords, w ≠ []) w hw
      have h0 : pre ++ (w ++ post) = [] := ht.symm
      rw [List.append_eq_nil] at h0
      have h1 := h0.2
      rw [List.append_eq_nil] at h1
      exact absurd h1.1 hwne
  | cons c cs ih =>
    intro prev
    rw [greetingScan]
    constructor
    · intro h
      rw [Bool.or_eq_true] at h
      rcases h with h1 | h2
      · rw [Bool.and_eq_true] at h1
        obtain ⟨hprev, hany⟩ := h1
        rw [List.any_eq_true] at hany
        obtain ⟨w, hw, hwa⟩ := hany
        obtain ⟨post, hsplit, hr⟩ := (wordAt_iff w (c :: cs)).mp hwa
        refine ⟨w, [], post, hw, by rw [List.nil_append, ← hsplit], Or.inl ⟨rfl, ?_⟩, hr⟩
        simpa using hprev
      · obtain ⟨w, pre, post, hw, hsplit, hl, hr⟩ := (ih (isWordChar c)).mp h2
        refine ⟨w, c :: pre, post, hw, by rw [List.cons_append, hsplit], ?_, hr⟩
        rcases hl with ⟨hpre, hc⟩ | ⟨pre', d, hpre, hd⟩
        · subst hpre
          exact Or.inr ⟨[], c, rfl, hc⟩
        · subst hpre
          exact Or.inr ⟨c :: pre', d, by rw [List.cons_append], hd⟩
    · rintro ⟨w, pre, post, hw, hsplit, hl, hr⟩
      cases pre with
      | nil =>
        rcases hl with ⟨-, hprev⟩ | ⟨pre', d, habs, -⟩
        · subst hprev
          rw [Bool.or_eq_true]
          left
          rw [Bool.and_eq_true]
          refine ⟨rfl, ?_⟩
          rw [List.any_eq_true]
          refine ⟨w, hw, ?_⟩
          rw [List.nil_append] at hsplit
          exact (wordAt_iff w (c :: cs)).mpr ⟨post, hsplit, hr⟩
        · exact absurd habs (by simp)
      | cons c' pre0 =>
        rw [List.cons_append] at hsplit
        obtain ⟨hcc, hcs⟩ := List.cons.inj hsplit
        subst hcc
        rw [Bool.or_eq_true]
        right
        apply (ih (isWordChar c)).mpr
        refine ⟨w, pre0, post, hw, hcs, ?_, hr⟩
        rcases hl with ⟨habs, -⟩ | ⟨pre', d, hpre, hd⟩
        · exact absurd habs (by simp)
        · cases pre' with
          | nil =>
            rw [List.nil_append] at hpre
            obtain ⟨hcd, hp0⟩ := List.cons.inj hpre
            subst hp0
            refine Or.inl ⟨rfl, ?_⟩
            rw [hcd]
            exact hd
          | cons e pre'' =>
            rw [List.cons_append] at hpre
            obtain ⟨-, hp0⟩ := List.cons.inj hpre
            exact Or.inr ⟨pre'', d, hp0, hd⟩

theorem leftBoundary_false_iff (pre : Str) :
    leftBoundary false pre ↔ ∀ c, pre.getLast? = some c → isWordChar c = false := by
  constructor
  · rintro (⟨hpre, -⟩ | ⟨pre', d, hpre, hd⟩)
    · subst hpre
      intro c hc
      exact Option.noConfusion hc
    · subst hpre
      intro c hc
      rw [List.getLast?_concat] at hc
      have hdc : d = c := Option.some.inj hc
      subst hdc
      exact hd
  · intro h
    rcases List.eq_nil_or_concat pre with hpe | ⟨l, b, hpe⟩
    · exact Or.inl ⟨hpe, rfl⟩
    · rw [List.concat_eq_append] at hpe
      subst hpe
      exact Or.inr ⟨l, b, rfl, h b (List.getLast?_concat l)⟩

theorem greetingFound_iff (t : Str) : greetingFound t = true ↔ greetingSpec t := by
  rw [greetingFound, greetingScan_iff]
  constructor
  · rintro ⟨w, pre, post, hw, ht, hl, hr⟩
    exact ⟨w, pre, post, hw, ht, (leftBoundary_false_iff pre).mp hl, hr⟩
  · rintro ⟨w, pre, post, hw, ht, hl, hr⟩
    exact ⟨w, pre, post, hw, ht, (leftBoundary_false_iff pre).mpr hl, hr⟩

theorem searchTrackOrder_isSome_iff (q : Str) :
    (searchTrackOrder q).isSome = true ↔ trackSpec q := by
  constructor
  · intro h
    cases hs : searchTrackOrder q with
    | none => rw [hs] at h; exact Bool.noConfusion h
    | some tok =>
      obtain ⟨pre, ph, ws, post, hq, hph, hws, hne, hal, _⟩ := searchTrackOrder_sound q tok hs
      exact ⟨pre, ph, ws, tok, post, hq, hph, hws, hne, hal⟩
  · rintro ⟨pre, ph, ws, tok, post, hq, hph, hws, hne, hal⟩
    obtain ⟨tok', h⟩ := searchTrackOrder_complete pre ph ws tok post hph hws hne hal
    rw [hq, h]
    rfl

end Lemmas

section ClaimTheorems

/-- C1: for every query string, the FAQ matcher scores each entry by the
number of its keywords occurring as substrings of the lower-cased query and
returns the question and answer of the first entry with the strictly highest
positive score (earlier entries of the store's declaration order win ties);
when every entry scores 0 it reports no match and the endpoint returns the
fixed fallback answer with no matched question. -/
theorem C1_faq_matcher (uq : Str) :
    (∃ l₁ w l₂, faq_database = l₁ ++ w :: l₂ ∧
      1 ≤ entryScore (lowerStr uq) w.2 ∧
      (∀ p ∈ l₁, entryScore (lowerStr uq) p.2 < entryScore (lowerStr uq) w.2) ∧
      (∀ p ∈ l₂, entryScore (lowerStr uq) p.2 ≤ entryScore (lowerStr uq) w.2) ∧
      find_faq_answer uq = some w.2 ∧
      get_faq uq = { matched_question := some w.2.question, answer := w.2.answer }) ∨
    ((∀ p ∈ faq_database, entryScore (lowerStr uq) p.2 = 0) ∧
      find_faq_answer uq = none ∧
      get_faq uq = { matched_question := none, answer := faqFallbackAnswer }) := by
  rcases faqFold_spec (lowerStr uq) faq_database 0 none with
    ⟨heq, hall⟩ | ⟨l₁, w, l₂, hdec, hres, hpos, hl₁, hl₂⟩
  · have hfind : find_faq_answer uq = none := by
      rw [find_faq_answer, heq]
    refine Or.inr ⟨fun p hp => Nat.le_zero.mp (hall p hp), hfind, ?_⟩
    rw [get_faq, hfind]
  · obtain ⟨wk, we⟩ := w
    have hget : dictGet wk faq_database = some we := by
      rw [hdec]
      exact dictGet_middle_of_nodup l₁ l₂ wk we (by rw [← hdec]; exact faq_keys_nodup)
    have hfind : find_faq_answer uq = some we := by
      rw [find_faq_answer, hres]
      show (if 0 < entryScore (lowerStr uq) we then dictGet wk faq_database else none) = some we
      rw [if_pos hpos, hget]
    refine Or.inl ⟨l₁, ⟨wk, we⟩, l₂, hdec, hpos, hl₁, hl₂, hfind, ?_⟩
    rw [get_faq, hfind]

/-- C2: for every valid ticket submission, retrieving the ticket by the
identifier of the submission response yields the very same record (equal in
every field, being the same `Ticket` value), and the response carries the
generated identifier and timestamp. -/
theorem C2_ticket_roundtrip (pol : Str → ℚ) (uuid ts : Str) (db : TicketDB)
    (user_email issue_description : Option Str) (ticket_input : TicketInput)
    (hv : validateTicketInput user_email issue_description = some ticket_input) :
    ∃ t db',
      submit_ticket pol uuid ts db user_email issue_description = (Except.ok t, db') ∧
      t.ticket_id = uuid ∧ t.timestamp = ts ∧
      get_ticket_status db' uuid = (Except.ok t, db') := by
  have hsub : submit_ticket pol uuid ts db user_email issue_description =
      (Except.ok ⟨uuid, ticket_input.user_email, ticket_input.issue_description,
        str "submitted", classify pol ticket_input.issue_description, ts⟩,
      dictInsert uuid ⟨uuid, ticket_input.user_email, ticket_input.issue_description,
        str "submitted", classify pol ticket_input.issue_description, ts⟩ db) := by
    rw [submit_ticket, hv]
  exact ⟨_, _, hsub, rfl, rfl, by rw [get_ticket_status, dictGet_insert_self]⟩

/-- Witness for C2 at a concrete submission. -/
theorem C2_ticket_roundtrip_witness :
    ∃ t db',
      submit_ticket (fun _ => 0) (str "id-1") (str "2026-01-01T00:00:00Z") []
          (some (str "user@example.com")) (some (str "My order is late!")) = (Except.ok t, db') ∧
      t.ticket_id = str "id-1" ∧ t.timestamp = str "2026-01-01T00:00:00Z" ∧
      get_ticket_status db' (str "id-1") = (Except.ok t, db') :=
  C2_ticket_roundtrip (fun _ => 0) (str "id-1") (str "2026-01-01T00:00:00Z") []
    (some (str "user@example.com")) (some (str "My order is late!"))
    { user_email := str "user@example.com", issue_description := str "My order is late!" }
    (by decide)

/-- C3: ticket lookup returns the stored record when the identifier is a key
of the store, fails with HTTP 404 and detail "Ticket not found" exactly when
it is not, and never mutates the store. -/
theorem C3_ticket_lookup (db : TicketDB) (ticket_id : Str) :
    (get_ticket_status db ticket_id).2 = db ∧
    ((get_ticket_status db ticket_id).1 =
        Except.error { status_code := 404, detail := str "Ticket not found" } ↔
      dictGet ticket_id db = none) ∧
    ∀ t, dictGet ticket_id db = some t → (get_ticket_status db ticket_id).1 = Except.ok t := by
  cases h : dictGet ticket_id db with
  | none =>
    have hg : get_ticket_status db ticket_id =
        (Except.error { status_code := 404, detail := str "Ticket not found" }, db) := by
      rw [get_ticket_status, h]
    refine ⟨by rw [hg], ⟨fun _ => rfl, fun _ => by rw [hg]⟩, ?_⟩
    intro t ht
    exact Option.noConfusion ht
  | some t₀ =>
    have hg : get_ticket_status db ticket_id = (Except.ok t₀, db) := by
      rw [get_ticket_status, h]
    refine ⟨by rw [hg], ⟨fun e => ?_, fun e => Option.noConfusion e⟩, ?_⟩
    · rw [hg] at e
      exact Except.noConfusion e
    · intro t ht
      have ht₀ : t₀ = t := Option.some.inj ht
      rw [hg, ht₀]

/-- C6: the sentiment classifier labels a text positive exactly when its
polarity score exceeds 0.1, negative exactly when the score is below -0.1,
and neutral otherwise (both boundary values included); it is a pure function
of the score of the text. -/
theorem C6_sentiment_thresholds (polarity : ℚ) (pol : Str → ℚ) (text : Str) :
    (get_sentiment polarity = str "positive" ↔ 1/10 < polarity) ∧
    (get_sentiment polarity = str "negative" ↔ polarity < -(1/10)) ∧
    (get_sentiment polarity = str "neutral" ↔ -(1/10) ≤ polarity ∧ polarity ≤ 1/10) ∧
    classify pol text = get_sentiment (pol text) := by
  refine ⟨?_, ?_, ?_, rfl⟩ <;> unfold get_sentiment <;> split_ifs with h1 h2
  · exact ⟨fun _ => h1, fun _ => rfl⟩
  · exact ⟨fun e => absurd e (by decide), fun hc => absurd hc h1⟩
  · exact ⟨fun e => absurd e (by decide), fun hc => absurd hc h1⟩
  · exact ⟨fun e => absurd e (by decide), fun hc => absurd hc (not_lt.mpr (by linarith))⟩
  · exact ⟨fun _ => h2, fun _ => rfl⟩
  · exact ⟨fun e => absurd e (by decide), fun hc => absurd hc h2⟩
  · exact ⟨fun e => absurd e (by decide), fun hc => absurd h1 (not_lt.mpr hc.2)⟩
  · exact ⟨fun e => absurd e (by decide), fun hc => absurd h2 (not_lt.mpr hc.1)⟩
  · exact ⟨fun _ => ⟨not_lt.mp h2, not_lt.mp h1⟩, fun _ => rfl⟩

/-- C7: a ticket submission whose issue description is shorter than 10
characters, or with a missing email or description field, fails with the 422
validation error and leaves the ticket store completely unchanged. -/
theorem C7_invalid_submission (pol : Str → ℚ) (uuid ts : Str) (db : TicketDB)
    (user_email issue_description : Option Str)
    (h : user_email = none ∨ issue_description = none ∨
      ∃ d, issue_description = some d ∧ d.length < 10) :
    submit_ticket pol uuid ts db user_email issue_description =
      (Except.error validationError422, db) := by
  have hv : validateTicketInput user_email issue_description = none := by
    rcases h with h | h | ⟨d, hd, hlen⟩
    · subst h
      cases issue_description <;> rfl
    · subst h
      cases user_email <;> rfl
    · subst hd
      cases user_email with
      | none => rfl
      | some e => rw [validateTicketInput, if_neg (Nat.not_le.mpr hlen)]
  rw [submit_ticket, hv]

/-- Witness for C7 at a concrete too-short description. -/
theorem C7_invalid_submission_witness :
    submit_ticket (fun _ => 0) (str "id-1") (str "T0") [] (some (str "a@b.c"))
        (some (str "short")) = (Except.error validationError422, []) :=
  C7_invalid_submission (fun _ => 0) (str "id-1") (str "T0") [] (some (str "a@b.c"))
    (some (str "short")) (Or.inr (Or.inr ⟨str "short", rfl, by decide⟩))

/-- C8: the FAQ store's entries all carry a non-empty keyword list and its
keys are distinct (it is a constant of the embedding, hence read-only);
ticket lookup never mutates the ticket store; and a submission against a
store with distinct keys, given a fresh generated identifier, either changes
nothing (validation failure) or appends exactly one new record under the new
identifier, leaving every existing binding in place and the keys distinct. -/
theorem C8_store_invariants (pol : Str → ℚ) (uuid ts : Str) (db : TicketDB)
    (user_email issue_description : Option Str) (ticket_id : Str)
    (hfresh : dictGet uuid db = none) (hnodup : (db.map Prod.fst).Nodup) :
    (∀ p ∈ faq_database, p.2.keywords ≠ []) ∧
    (faq_database.map Prod.fst).Nodup ∧
    (get_ticket_status db ticket_id).2 = db ∧
    ((submit_ticket pol uuid ts db user_email issue_description).2 = db ∨
      ∃ t, submit_ticket pol uuid ts db user_email issue_description =
          (Except.ok t, db ++ [(uuid, t)]) ∧
        t.ticket_id = uuid ∧ ((db ++ [(uuid, t)]).map Prod.fst).Nodup) := by
  refine ⟨by decide, faq_keys_nodup, ?_, ?_⟩
  · cases h : dictGet ticket_id db with
    | none => rw [get_ticket_status, h]
    | some t => rw [get_ticket_status, h]
  · cases hv : validateTicketInput user_email issue_description with
    | none =>
      left
      rw [submit_ticket, hv]
    | some inp =>
      right
      have hsub : submit_ticket pol uuid ts db user_email issue_description =
          (Except.ok ⟨uuid, inp.user_email, inp.issue_description, str "submitted",
            classify pol inp.issue_description, ts⟩,
          dictInsert uuid ⟨uuid, inp.user_email, inp.issue_description, str "submitted",
            classify pol inp.issue_description, ts⟩ db) := by
        rw [submit_ticket, hv]
      rw [hsub, dictInsert_fresh uuid _ db hfresh]
      refine ⟨_, rfl, rfl, ?_⟩
      rw [List.map_append, List.nodup_append]
      refine ⟨hnodup, by simp, ?_⟩
      intro a ha hb
      have hab : a = uuid := by simpa using hb
      subst hab
      exact (dictGet_eq_none_iff a db).mp hfresh ha

/-- Witness for C8: a successful submission into the empty store. -/
theorem C8_store_invariants_witness :
    (submit_ticket (fun _ => 0) (str "id-1") (str "T0") [] (some (str "a@b.c"))
        (some (str "0123456789"))).2 = [] ∨
      ∃ t, submit_ticket (fun _ => 0) (str "id-1") (str "T0") [] (some (str "a@b.c"))
          (some (str "0123456789")) = (Except.ok t, [] ++ [(str "id-1", t)]) ∧
        t.ticket_id = str "id-1" ∧ (([] ++ [(str "id-1", t)]).map Prod.fst).Nodup :=
  (C8_store_invariants (fun _ => 0) (str "id-1") (str "T0") [] (some (str "a@b.c"))
    (some (str "0123456789")) (str "x") rfl List.nodup_nil).2.2.2

/-- C4: the intent recognizer evaluates its rules in fixed priority order —
track_order, then greeting, then unknown — and exactly the first matching
rule fires: a query matching the track-order pattern yields intent
track_order even when a greeting word also occurs; with no track-order
match, a case-insensitive whole-word greeting occurrence in the lower-cased
query yields the fixed greeting result with no entities; any other query
yields the fixed unknown result with no entities. -/
theorem C4_intent_priority (q : Str) :
    (trackSpec q → (recognize_intent_and_extract_entities q).intent = str "track_order") ∧
    (¬ trackSpec q → greetingSpec (lowerStr q) →
      recognize_intent_and_extract_entities q =
        { intent := str "greeting", entities := [], message := greetingMessage }) ∧
    (¬ trackSpec q → ¬ greetingSpec (lowerStr q) →
      recognize_intent_and_extract_entities q =
        { intent := str "unknown", entities := [], message := unknownMessage }) := by
  have hnone : ¬ trackSpec q → searchTrackOrder q = none := by
    intro hnt
    cases hs : searchTrackOrder q with
    | none => rfl
    | some tok =>
      exact absurd ((searchTrackOrder_isSome_iff q).mp (by rw [hs]; rfl)) hnt
  refine ⟨?_, ?_, ?_⟩
  · intro ht
    have hsome := (searchTrackOrder_isSome_iff q).mpr ht
    cases hs : searchTrackOrder q with
    | none =>
      rw [hs] at hsome
      exact Bool.noConfusion hsome
    | some tok =>
      rw [recognize_intent_and_extract_entities, hs]
  · intro hnt hg
    have hgf : greetingFound (lowerStr q) = true := (greetingFound_iff _).mpr hg
    rw [recognize_intent_and_extract_entities, hnone hnt, hgf]
    rfl
  · intro hnt hng
    have hgf : greetingFound (lowerStr q) = false := by
      cases hgf : greetingFound (lowerStr q) with
      | false => rfl
      | true => exact absurd ((greetingFound_iff _).mp hgf) hng
    rw [recognize_intent_and_extract_entities, hnone hnt, hgf]
    rfl

/-- C5: the action endpoint overwrites the recognizer's message with the
mocked delivery-status string — which contains the upper-cased order id and
"Tomorrow" — exactly when the recognized intent is track_order; for every
other intent the recognizer's intent, entities and message pass through
unchanged. -/
theorem C5_action_postprocessing (q : Str) :
    ((recognize_intent_and_extract_entities q).intent ≠ str "track_order" →
      perform_action q = recognize_intent_and_extract_entities q) ∧
    ((recognize_intent_and_extract_entities q).intent = str "track_order" →
      ∃ tok, searchTrackOrder q = some tok) ∧
    (∀ tok, searchTrackOrder q = some tok →
      perform_action q =
        { intent := str "track_order", entities := [(str "order_id", upperStr tok)],
          message := str "Mocked: Order " ++ upperStr tok ++
            str " is currently out for delivery. Estimated arrival: Tomorrow." } ∧
      containsSub (upperStr tok) (perform_action q).message = true ∧
      containsSub (str "Tomorrow") (perform_action q).message = true) := by
  refine ⟨?_, ?_, ?_⟩
  · intro hint
    simp only [perform_action]
    rw [if_neg hint]
  · intro hint
    cases hs : searchTrackOrder q with
    | some tok => exact ⟨tok, rfl⟩
    | none =>
      exfalso
      rw [recognize_intent_and_extract_entities, hs] at hint
      by_cases hg : greetingFound (lowerStr q) = true
      · rw [if_pos hg] at hint
        exact absurd hint (by decide)
      · rw [if_neg hg] at hint
        exact absurd hint (by decide)
  · intro tok hs
    have hrec : recognize_intent_and_extract_entities q =
        { intent := str "track_order", entities := [(str "order_id", upperStr tok)],
          message := str "Fetching status for order " ++ upperStr tok ++ str "..." } := by
      rw [recognize_intent_and_extract_entities, hs]
    have hpa : perform_action q =
        { intent := str "track_order", entities := [(str "order_id", upperStr tok)],
          message := str "Mocked: Order " ++ upperStr tok ++
            str " is currently out for delivery. Estimated arrival: Tomorrow." } := by
      simp only [perform_action, hrec]
      rw [if_pos trivial]
      rfl
    refine ⟨hpa, ?_, ?_⟩
    · rw [hpa, List.append_assoc]
      exact containsSub_middle _ _ _
    · rw [hpa]
      rw [show str " is currently out for delivery. Estimated arrival: Tomorrow." =
        str " is currently out for delivery. Estimated arrival: " ++
          (str "Tomorrow" ++ str ".") from by decide]
      rw [← List.append_assoc]
      exact containsSub_middle _ _ _

/-- C10: whenever one of the three track-order phrases occurs in the query
(case-insensitively) followed by optional whitespace and at least one ASCII
alphanumeric character, the recognizer reports intent track_order, and the
extracted order_id is the upper-casing of the maximal alphanumeric run at
the matched position — any ordinary word qualifies ("where is my order
please" yields "PLEASE") and the token stops at the first non-alphanumeric
character ("track my order ORD-123" yields "ORD"). -/
theorem C10_order_id_extraction (q : Str) :
    (∀ tok, searchTrackOrder q = some tok →
      recognize_intent_and_extract_entities q =
        { intent := str "track_order", entities := [(str "order_id", upperStr tok)],
          message := str "Fetching status for order " ++ upperStr tok ++ str "..." } ∧
      ∃ pre ph ws post, q = pre ++ (ph ++ (ws ++ (tok ++ post))) ∧
        lowerStr ph ∈ trackPhrases ∧ ws.all (fun c => isSpaceChar c) = true ∧
        tok ≠ [] ∧ tok.all (fun c => isAlnum c) = true ∧
        ∀ c, post.head? = some c → isAlnum c = false) ∧
    (trackSpec q → (searchTrackOrder q).isSome = true) ∧
    recognize_intent_and_extract_entities (str "where is my order please") =
      { intent := str "track_order", entities := [(str "order_id", str "PLEASE")],
        message := str "Fetching status for order PLEASE..." } ∧
    recognize_intent_and_extract_entities (str "track my order ORD-123") =
      { intent := str "track_order", entities := [(str "order_id", str "ORD")],
        message := str "Fetching status for order ORD..." } := by
  refine ⟨?_, fun ht => (searchTrackOrder_isSome_iff q).mpr ht, by decide, by decide⟩
  intro tok hs
  refine ⟨?_, searchTrackOrder_sound q tok hs⟩
  rw [recognize_intent_and_extract_entities, hs]

/-- C9 counterexample: two submissions with identical input and distinct
generated identifiers, but with the process clock reading the same instant
for both calls (`datetime.utcnow()` has finite resolution and nothing in the
code enforces distinct readings), produce two tickets whose timestamps are
equal — the claim's "two distinct timestamps" fails on such a run. -/
theorem C9_distinct_timestamps_counterexample :
    ((submit_ticket (fun _ => 0) (str "id-1") (str "2026-01-01T00:00:00Z") []
        (some (str "user@example.com")) (some (str "It never arrived!"))).1.toOption.map
        Ticket.ticket_id = some (str "id-1")) ∧
    ((submit_ticket (fun _ => 0) (str "id-2") (str "2026-01-01T00:00:00Z")
        (submit_ticket (fun _ => 0) (str "id-1") (str "2026-01-01T00:00:00Z") []
          (some (str "user@example.com")) (some (str "It never arrived!"))).2
        (some (str "user@example.com")) (some (str "It never arrived!"))).1.toOption.map
        Ticket.ticket_id = some (str "id-2")) ∧
    (str "id-1" : Str) ≠ str "id-2" ∧
    ((submit_ticket (fun _ => 0) (str "id-1") (str "2026-01-01T00:00:00Z") []
        (some (str "user@example.com")) (some (str "It never arrived!"))).1.toOption.map
        Ticket.timestamp =
      (submit_ticket (fun _ => 0) (str "id-2") (str "2026-01-01T00:00:00Z")
        (submit_ticket (fun _ => 0) (str "id-1") (str "2026-01-01T00:00:00Z") []
          (some (str "user@example.com")) (some (str "It never arrived!"))).2
        (some (str "user@example.com")) (some (str "It never arrived!"))).1.toOption.map
        Ticket.timestamp) :=
  ⟨by decide, by decide, by decide, by decide⟩

/-- C9 (amended): two submissions with identical input yield tickets stamped
with the respective generated identifier and clock reading; when the two
generated identifiers are distinct, the tickets are stored under distinct
identifiers and both remain independently retrievable, and the timestamps
are distinct whenever the two clock readings are distinct. -/
theorem C9_two_submissions (pol : Str → ℚ) (u1 u2 ts1 ts2 : Str) (db : TicketDB)
    (user_email issue_description : Option Str) (ticket_input : TicketInput)
    (hv : validateTicketInput user_email issue_description = some ticket_input)
    (hu : u1 ≠ u2) :
    ∃ t1 t2 db1 db2,
      submit_ticket pol u1 ts1 db user_email issue_description = (Except.ok t1, db1) ∧
      submit_ticket pol u2 ts2 db1 user_email issue_description = (Except.ok t2, db2) ∧
      t1.ticket_id = u1 ∧ t2.ticket_id = u2 ∧ t1.ticket_id ≠ t2.ticket_id ∧
      t1.timestamp = ts1 ∧ t2.timestamp = ts2 ∧
      (ts1 ≠ ts2 → t1.timestamp ≠ t2.timestamp) ∧
      (get_ticket_status db2 u1).1 = Except.ok t1 ∧
      (get_ticket_status db2 u2).1 = Except.ok t2 := by
  have hsub1 : submit_ticket pol u1 ts1 db user_email issue_description =
      (Except.ok ⟨u1, ticket_input.user_email, ticket_input.issue_description,
        str "submitted", classify pol ticket_input.issue_description, ts1⟩,
      dictInsert u1 ⟨u1, ticket_input.user_email, ticket_input.issue_description,
        str "submitted", classify pol ticket_input.issue_description, ts1⟩ db) := by
    rw [submit_ticket, hv]
  have hsub2 : submit_ticket pol u2 ts2
      (dictInsert u1 ⟨u1, ticket_input.user_email, ticket_input.issue_description,
        str "submitted", classify pol ticket_input.issue_description, ts1⟩ db)
      user_email issue_description =
      (Except.ok ⟨u2, ticket_input.user_email, ticket_input.issue_description,
        str "submitted", classify pol ticket_input.issue_description, ts2⟩,
      dictInsert u2 ⟨u2, ticket_input.user_email, ticket_input.issue_description,
        str "submitted", classify pol ticket_input.issue_description, ts2⟩
        (dictInsert u1 ⟨u1, ticket_input.user_email, ticket_input.issue_description,
          str "submitted", classify pol ticket_input.issue_description, ts1⟩ db)) := by
    rw [submit_ticket, hv]
  refine ⟨_, _, _, _, hsub1, hsub2, rfl, rfl, hu, rfl, rfl, fun h => h, ?_, ?_⟩
  · rw [get_ticket_status, dictGet_insert_ne u2 u1 _ _ hu, dictGet_insert_self]
  · rw [get_ticket_status, dictGet_insert_self]

/-- Witness for the amended C9 at concrete identical submissions. -/
theorem C9_two_submissions_witness :
    ∃ t1 t2 db1 db2,
      submit_ticket (fun _ => 0) (str "id-1") (str "T1") []
          (some (str "user@example.com")) (some (str "It never arrived!")) =
        (Except.ok t1, db1) ∧
      submit_ticket (fun _ => 0) (str "id-2") (str "T2") db1
          (some (str "user@example.com")) (some (str "It never arrived!")) =
        (Except.ok t2, db2) ∧
      t1.ticket_id = str "id-1" ∧ t2.ticket_id = str "id-2" ∧
      t1.ticket_id ≠ t2.ticket_id ∧
      t1.timestamp = str "T1" ∧ t2.timestamp = str "T2" ∧
      ((str "T1" : Str) ≠ str "T2" → t1.timestamp ≠ t2.timestamp) ∧
      (get_ticket_status db2 (str "id-1")).1 = Except.ok t1 ∧
      (get_ticket_status db2 (str "id-2")).1 = Except.ok t2 :=
  C9_two_submissions (fun _ => 0) (str "id-1") (str "id-2") (str "T1") (str "T2") []
    (some (str "user@example.com")) (some (str "It never arrived!"))
    ⟨str "user@example.com", str "It never arrived!"⟩ (by decide) (by decide)

end ClaimTheorems

end CustomerHelper
